import Mathlib

/-!
Verification of the bulk index build pipeline
(`BtreeBasedBulkAccessMethod` in `src/mongo/db/index/btree_based_bulk_access_method.cpp`)
and the Rocks collection catalog entry
(`src/mongo/db/storage/rocks/rocks_collection_catalog_entry.cpp`).

The C++ sources are embedded shallowly: pure structure and control flow are
translated to Lean functions; calls into external collaborators (the bottom-up
tree builder, the progress meter, the catalog `setMultikey`) are represented by
explicit parameters and an event trace so theorems can speak about call order.
-/

namespace Mongo

/-- Mongo error codes are integers; `OK` is 0, `InternalError` is 1 and
`DuplicateKey` is 11000 (the well-known wire values).  Only their mutual
distinctness matters to the code under verification. -/
def ErrorCodes.OK : Int := 0

/-- Internal-error classification (see `ErrorCodes.OK`). -/
def ErrorCodes.InternalError : Int := 1

/-- Duplicate-key error classification (see `ErrorCodes.OK`). -/
def ErrorCodes.DuplicateKey : Int := 11000

/-- `mongo::Status`: an error code plus a reason string. -/
structure Status where
  code : Int
  reason : String
deriving DecidableEq, Repr

/-- `Status::isOK()`: the status carries the `OK` code. -/
def Status.isOK (s : Status) : Bool := s.code == ErrorCodes.OK

/-- `Status::OK()`. -/
def Status.okStatus : Status := ⟨ErrorCodes.OK, ""⟩

/-- Modelled from the spec: `DiskLoc` (defined in `diskloc.h`, outside the
given sources) is an opaque stable document location made of a file number
`a` and an offset `ofs`; locations are unique per document. -/
structure DiskLoc where
  a : Int
  ofs : Int
deriving DecidableEq, Repr

/-- Modelled from the spec: `DiskLoc::compare` (outside the given sources) is
a total integer-valued comparison of locations — file number first, then
offset — returning zero exactly on identical locations, so that the ordering
contract can tie-break by location. -/
def DiskLoc.compare (l r : DiskLoc) : Int :=
  if l.a ≠ r.a then l.a - r.a else l.ofs - r.ofs

theorem DiskLoc.compare_eq_zero_iff (l r : DiskLoc) : l.compare r = 0 ↔ l = r := by
  cases l with
  | mk la lofs =>
    cases r with
    | mk ra rofs =>
      unfold DiskLoc.compare
      by_cases h : la = ra
      · simp [h]
        omega
      · simp [h]
        omega

theorem DiskLoc.compare_antisymm (l r : DiskLoc) : l.compare r = -(r.compare l) := by
  unfold DiskLoc.compare
  split_ifs <;> omega

theorem DiskLoc.compare_trans (l m r : DiskLoc)
    (h1 : l.compare m < 0) (h2 : m.compare r < 0) : l.compare r < 0 := by
  unfold DiskLoc.compare at *
  split_ifs at * <;> omega

/--
`BtreeExternalSortComparison` (lines 48–68 of
`btree_based_bulk_access_method.cpp`): compares `(key, location)` pairs.  The
key type is abstract (`K` stands for `BSONObj`); the two key comparison
routines `woCompare` (field-name-insensitive, version 1) and `oldCompare`
(legacy, version 0) are external to the given sources, so they appear here as
fields, each with the construction-time `Ordering` already baked in.  The
`version` field is fixed at construction.
-/
structure BtreeExternalSortComparison (K : Type) where
  woCompare : K → K → Int
  oldCompare : K → K → Int
  version : Int

/-- `BtreeExternalSortComparison::operator()`: version-selected key
comparison, with ties broken by comparing the locations. -/
def BtreeExternalSortComparison.call {K : Type} (c : BtreeExternalSortComparison K)
    (l r : K × DiskLoc) : Int :=
  let x : Int := if c.version = 1 then c.woCompare l.1 r.1 else c.oldCompare l.1 r.1
  if x ≠ 0 then x else l.2.compare r.2

/-- The key routine `call` selects, as a function of the version flag. -/
def BtreeExternalSortComparison.selectedKeyCmp {K : Type}
    (c : BtreeExternalSortComparison K) : K → K → Int :=
  if c.version = 1 then c.woCompare else c.oldCompare

theorem BtreeExternalSortComparison.call_eq {K : Type}
    (c : BtreeExternalSortComparison K) (l r : K × DiskLoc) :
    c.call l r = (if c.selectedKeyCmp l.1 r.1 ≠ 0
                  then c.selectedKeyCmp l.1 r.1 else l.2.compare r.2) := by
  unfold BtreeExternalSortComparison.call BtreeExternalSortComparison.selectedKeyCmp
  by_cases h : c.version = 1 <;> simp [h]

/-- The accumulator state of `BtreeBasedBulkAccessMethod` (fields
`_docsInserted`, `_keysInserted`, `_isMultiKey` and the multiset of pairs
added to `_sorter`), over an abstract key type `K` standing for `BSONObj`. -/
structure BulkState (K : Type) where
  docsInserted : Nat
  keysInserted : Nat
  isMultiKey : Bool
  sorterEntries : Multiset (K × DiskLoc)

/-- The constructor (lines 70–87): counters at zero, multikey flag false,
empty sorter. -/
def BtreeBasedBulkAccessMethod.init (K : Type) : BulkState K :=
  { docsInserted := 0, keysInserted := 0, isMultiKey := false, sorterEntries := 0 }

/-- `BtreeBasedBulkAccessMethod::insert` (lines 89–112).  The key extractor
`_real->getKeys` is an external collaborator, so the set of keys it produced
for the document is a parameter.  Returns the new state, the status
(always OK) and the amount added to `*numInserted` (the key count). -/
def BtreeBasedBulkAccessMethod.insert {K : Type} (s : BulkState K)
    (keys : Finset K) (loc : DiskLoc) : BulkState K × Status × Nat :=
  ({ docsInserted := s.docsInserted + 1,
     keysInserted := s.keysInserted + keys.card,
     isMultiKey := s.isMultiKey || decide (1 < keys.card),
     sorterEntries := s.sorterEntries + keys.val.map (fun k => (k, loc)) },
   Status.okStatus, keys.card)

/-- The observable calls `commit` makes on its collaborators, in order:
`setMultikey` on the catalog entry, `pm.hit()`, `pm.finished()` and the
builder's final `commit`. -/
inductive Event where
  | setMultikey
  | hit
  | finished
  | builderCommit
deriving DecidableEq, Repr

/-- The `BtreeBuilderInterface` bulk builder handed back by
`getBulkBuilder`, abstracted as a state machine: `addKey` consumes a key and
location and yields the next state plus a `Status`; `commitB` is the final
`commit(mayInterrupt)` returning the number of keys committed. -/
structure BulkBuilder (K σ : Type) where
  addKey : σ → K → DiskLoc → σ × Status
  commitB : σ → Bool → Nat

/-- `kMaxDupsToStore` (line 152). -/
def kMaxDupsToStore : Nat := 1000000

/-- The status returned when the duplicate set overflows (lines 155–156). -/
def tooManyDupsStatus : Status :=
  ⟨ErrorCodes.InternalError, "Too many dups on index build with dropDups = true"⟩

/-- Result of the consumption loop of `commit` (lines 140–167): `status` is
`some s` when the loop returned early with `s` and `none` when it consumed
every entry; `state` is the builder state, `dups` the duplicate set, and
`events` the `pm.hit()` calls made, in order. -/
structure LoopResult (σ : Type) where
  status : Option Status
  state : σ
  dups : Finset DiskLoc
  events : List Event

/-- Prefix a `pm.hit()` call to a loop result's event trace. -/
def hitCons {σ : Type} (r : LoopResult σ) : LoopResult σ :=
  { r with events := Event.hit :: r.events }

/-- The `while (i->more())` consumption loop of `commit` (lines 140–167),
over the sorted entry stream `entries`:
each entry goes to `builder->addKey`; a non-OK status other than
`DuplicateKey` returns immediately; a duplicate key with `dropDups` records
the location in the duplicate set and fails with `tooManyDupsStatus` when the
set exceeds `kMaxDupsToStore`; a duplicate key without `dropDups` returns the
duplicate status unless `dupsAllowed`; otherwise `pm.hit()` runs and the loop
continues. -/
def commitLoop {K σ : Type} (b : BulkBuilder K σ) (dropDups dupsAllowed : Bool) :
    List (K × DiskLoc) → σ → Finset DiskLoc → LoopResult σ
  | [], st, dups => ⟨none, st, dups, []⟩
  | d :: rest, st, dups =>
    let st2 := (b.addKey st d.1 d.2).1
    let status := (b.addKey st d.1 d.2).2
    if status.isOK then
      hitCons (commitLoop b dropDups dupsAllowed rest st2 dups)
    else if status.code ≠ ErrorCodes.DuplicateKey then
      ⟨some status, st2, dups, []⟩
    else if dropDups then
      let dups2 := insert d.2 dups
      if dups2.card > kMaxDupsToStore then
        ⟨some tooManyDupsStatus, st2, dups2, []⟩
      else
        hitCons (commitLoop b dropDups dupsAllowed rest st2 dups2)
    else if !dupsAllowed then
      ⟨some status, st2, dups, []⟩
    else
      hitCons (commitLoop b dropDups dupsAllowed rest st2 dups)

/-- What `commit` produced: the returned `Status`, the final duplicate set
(`*dupsToDrop`), the ordered trace of collaborator calls, the final builder
state, the count returned by the builder's final commit (`none` when the
build aborted before reaching it), and whether the count-mismatch warning was
logged. -/
structure CommitResult (σ : Type) where
  status : Status
  dups : Finset DiskLoc
  events : List Event
  state : σ
  keysCommit : Option Nat
  warned : Bool

/-- `BtreeBasedBulkAccessMethod::commit` (lines 114–183).  External inputs
are parameters: the bulk builder `b` with its initial state `st0` (the source
obtains it from `getBulkBuilder(_txn, dupsAllowed)`); `isMultiKey` and
`keysInserted` from the insert phase; the descriptor flags `unique` and
`dropDupsOpt`, the replication coordinator's `ignoreUniqueIndex` answer and
the `inDBRepair` global; the sorted entry stream `entries` produced by
`_sorter->done()`; and the caller's (initially empty) `*dupsToDrop` set.
When `_isMultiKey` is set the catalog `setMultikey` call happens first; after
a fully consumed loop, `pm.finished()` then `builder->commit(mayInterrupt)`
run, the mismatch warning fires when `!dropDups` and the committed count
differs from `_keysInserted`, and `Status::OK()` is returned. -/
def BtreeBasedBulkAccessMethod.commit {K σ : Type} (b : BulkBuilder K σ) (st0 : σ)
    (isMultiKey : Bool) (keysInserted : Nat)
    (unique ignoreUniqueIndex dropDupsOpt inDBRepair mayInterrupt : Bool)
    (entries : List (K × DiskLoc)) (dups0 : Finset DiskLoc) : CommitResult σ :=
  let pre : List Event := if isMultiKey then [Event.setMultikey] else []
  let dupsAllowed : Bool := !unique || ignoreUniqueIndex
  let dropDups : Bool := dropDupsOpt || inDBRepair
  let r := commitLoop b dropDups dupsAllowed entries st0 dups0
  match r.status with
  | some st => ⟨st, r.dups, pre ++ r.events, r.state, none, false⟩
  | none =>
    let keysCommit := b.commitB r.state mayInterrupt
    ⟨Status.okStatus, r.dups,
     pre ++ r.events ++ [Event.finished, Event.builderCommit], r.state,
     some keysCommit, !dropDups && keysCommit != keysInserted⟩

/-- Modelled from the spec: the bottom-up bulk tree builder behind
`getBulkBuilder(txn, dupsAllowed)` lives outside the given sources.  Per the
spec's `addKey` contract, its state is the list of keys appended so far; when
uniqueness is enforced (`dupsAllowed = false`) a key equal to an
already-inserted key is rejected with a duplicate-key status and not
inserted, otherwise the key is appended; the final commit reports how many
keys were committed. -/
def specBulkBuilder (K : Type) [DecidableEq K] (dupsAllowed : Bool) :
    BulkBuilder K (List K) where
  addKey st k _ :=
    if dupsAllowed = false ∧ k ∈ st then
      (st, ⟨ErrorCodes.DuplicateKey, "E11000 duplicate key error"⟩)
    else
      (st ++ [k], Status.okStatus)
  commitB st _ := st.length

/-- Modelled from the spec: the BSON layer (`BSONObj`, `BSONElement`,
`BSONObjBuilder`) lives outside the given sources; the catalog metadata is
"covered as a stable interface only".  A BSON value is a string, boolean,
32-bit integer field, a subobject or an array; `eoo` is the element returned
when a field is absent. -/
inductive BSONValue where
  | eoo
  | string (s : String)
  | bool (b : Bool)
  | int (n : Int)
  | object (fields : List (String × BSONValue))
  | array (elems : List BSONValue)

/-- A BSON object: an ordered list of named fields. -/
abbrev BSONObj := List (String × BSONValue)

/-- Modelled from the spec: `obj["name"]` — the first field with the given
name, or `eoo` when absent. -/
def BSONObj.getField : BSONObj → String → BSONValue
  | [], _ => .eoo
  | (n, v) :: rest, name => if n = name then v else BSONObj.getField rest name

/-- Modelled from the spec: `BSONElement::valuestrsafe()` — the string value,
or the empty string for a non-string element. -/
def BSONValue.valuestrsafe : BSONValue → String
  | .string s => s
  | _ => ""

/-- Modelled from the spec: `BSONElement::trueValue()` — the boolean value of
a boolean element, numeric elements are true when non-zero, `eoo` is false,
and any other element is true. -/
def BSONValue.trueValue : BSONValue → Bool
  | .bool b => b
  | .int n => n != 0
  | .eoo => false
  | _ => true

/-- Modelled from the spec: `BSONElement::Int()` — the value of an integer
element (other elements assert in the original; here they give 0). -/
def BSONValue.intValue : BSONValue → Int
  | .int n => n
  | _ => 0

/-- Modelled from the spec: `BSONElement::Obj()` — the subobject of an object
element (other elements assert in the original; here they give the empty
object). -/
def BSONValue.Obj : BSONValue → BSONObj
  | .object fs => fs
  | _ => []

/-- Modelled from the spec: `BSONElement::String()` — the value of a string
element (other elements assert in the original; here they give ""). -/
def BSONValue.StringVal : BSONValue → String
  | .string s => s
  | _ => ""

/-- Modelled from the spec: `BSONElement::isABSONObj()` — true for object and
array elements. -/
def BSONValue.isABSONObj : BSONValue → Bool
  | .object _ => true
  | .array _ => true
  | _ => false

/-- Modelled from the spec: `BSONElement::Array()` — the elements of an array
element (other elements assert in the original; here they give `[]`). -/
def BSONValue.arrayElems : BSONValue → List BSONValue
  | .array es => es
  | _ => []

namespace RocksCollectionCatalogEntry

/-- One entry of `RocksCollectionCatalogEntry::MetaData::indexes`
(`IndexMetaData` in `rocks_collection_catalog_entry.h`): the index spec
object, the ready and multikey flags, and the head location. -/
structure IndexMetaData where
  spec : BSONObj
  ready : Bool
  head : Mongo.DiskLoc
  multikey : Bool

/-- `RocksCollectionCatalogEntry::MetaData`: the collection namespace and its
index entries. -/
structure MetaData where
  ns : String
  indexes : List IndexMetaData

/-- The per-index subobject built by `MetaData::toBSON` (lines 252–258):
fields `spec`, `ready`, `multikey`, `head_a`, `head_b` in that order. -/
def IndexMetaData.toBSON (imd : IndexMetaData) : BSONValue :=
  .object [("spec", .object imd.spec),
           ("ready", .bool imd.ready),
           ("multikey", .bool imd.multikey),
           ("head_a", .int imd.head.a),
           ("head_b", .int imd.head.ofs)]

/-- `MetaData::toBSON` (lines 246–263): `{ ns: ..., indexes: [...] }`. -/
def MetaData.toBSON (md : MetaData) : BSONObj :=
  [("ns", .string md.ns),
   ("indexes", .array (md.indexes.map IndexMetaData.toBSON))]

/-- One iteration of the parse loop in `MetaData::parse` (lines 271–279). -/
def IndexMetaData.parseEntry (v : BSONValue) : IndexMetaData :=
  let idx := v.Obj
  { spec := (BSONObj.getField idx "spec").Obj,
    ready := (BSONObj.getField idx "ready").trueValue,
    head := ⟨(BSONObj.getField idx "head_a").intValue,
             (BSONObj.getField idx "head_b").intValue⟩,
    multikey := (BSONObj.getField idx "multikey").trueValue }

/-- `MetaData::parse` (lines 265–282): read `ns`, then, when the `indexes`
element is a BSON object/array, parse each entry in order. -/
def MetaData.parse (obj : BSONObj) : MetaData :=
  { ns := (BSONObj.getField obj "ns").valuestrsafe,
    indexes :=
      let e := BSONObj.getField obj "indexes"
      if e.isABSONObj then e.arrayElems.map IndexMetaData.parseEntry else [] }

/-- The scan inside `MetaData::findIndexOffset` (lines 239–244), carrying the
running position `i`. -/
def findIndexOffsetGo (name : String) : List IndexMetaData → Int → Int
  | [], _ => -1
  | imd :: rest, i =>
    if (BSONObj.getField imd.spec "name").StringVal = name then i
    else findIndexOffsetGo name rest (i + 1)

/-- `MetaData::findIndexOffset`: position of the first index entry whose
spec's `name` field equals `name`, or −1. -/
def MetaData.findIndexOffset (md : MetaData) (name : String) : Int :=
  findIndexOffsetGo name md.indexes 0

/-- `RocksCollectionCatalogEntry::setIndexIsMultikey` (lines 122–135) acting
on the stored metadata document `stored` (the bytes under the metadata key,
read back through `MetaData::parse` and written through `MetaData::toBSON`).
`none` models the `invariant( offset >= 0 )` failure.  Otherwise the result
is the stored document after the call together with the returned boolean:
when the flag already equals `multikey` nothing is written and the result is
`false`; otherwise the updated metadata is serialized back and the result is
`true`. -/
def setIndexIsMultikey (stored : BSONObj) (indexName : String) (multikey : Bool) :
    Option (BSONObj × Bool) :=
  let md := MetaData.parse stored
  let offset := md.findIndexOffset indexName
  if offset < 0 then none
  else
    match md.indexes[offset.toNat]? with
    | none => none
    | some imd =>
      if imd.multikey == multikey then some (stored, false)
      else
        let md2 : MetaData :=
          { md with indexes := md.indexes.set offset.toNat { imd with multikey := multikey } }
        some (md2.toBSON, true)

end RocksCollectionCatalogEntry

/-! ### Helper lemmas about integer-valued comparison functions -/

theorem kcmp_self_eq_zero {K : Type} (kc : K → K → Int)
    (hasym : ∀ a b, kc a b = -(kc b a)) (a : K) : kc a a = 0 := by
  have := hasym a a
  omega

theorem kcmp_lt_trans {K : Type} (kc : K → K → Int)
    (hasym : ∀ a b, kc a b = -(kc b a))
    (htrans : ∀ a b d, kc a b ≤ 0 → kc b d ≤ 0 → kc a d ≤ 0)
    {a b d : K} (h1 : kc a b < 0) (h2 : kc b d < 0) : kc a d < 0 := by
  have hle := htrans a b d h1.le h2.le
  rcases lt_or_eq_of_le hle with h | h
  · exact h
  · exfalso
    have hda : kc d a ≤ 0 := by have := hasym a d; omega
    have hba := htrans b d a h2.le hda
    have := hasym a b
    omega

theorem kcmp_eq_lt_trans {K : Type} (kc : K → K → Int)
    (hasym : ∀ a b, kc a b = -(kc b a))
    (htrans : ∀ a b d, kc a b ≤ 0 → kc b d ≤ 0 → kc a d ≤ 0)
    {a b d : K} (h1 : kc a b = 0) (h2 : kc b d < 0) : kc a d < 0 := by
  have hle := htrans a b d (by omega) h2.le
  rcases lt_or_eq_of_le hle with h | h
  · exact h
  · exfalso
    have hda : kc d a ≤ 0 := by have := hasym a d; omega
    have hba : kc b a ≤ 0 := by have := hasym a b; omega
    have hdb := htrans d a b hda (by omega)
    have := hasym b d
    omega

theorem kcmp_lt_eq_trans {K : Type} (kc : K → K → Int)
    (hasym : ∀ a b, kc a b = -(kc b a))
    (htrans : ∀ a b d, kc a b ≤ 0 → kc b d ≤ 0 → kc a d ≤ 0)
    {a b d : K} (h1 : kc a b < 0) (h2 : kc b d = 0) : kc a d < 0 := by
  have hle := htrans a b d h1.le (by omega)
  rcases lt_or_eq_of_le hle with h | h
  · exact h
  · exfalso
    have hda : kc d a ≤ 0 := by have := hasym a d; omega
    have hba := htrans b d a (by omega) hda
    have := hasym a b
    omega

theorem kcmp_eq_trans {K : Type} (kc : K → K → Int)
    (hasym : ∀ a b, kc a b = -(kc b a))
    (htrans : ∀ a b d, kc a b ≤ 0 → kc b d ≤ 0 → kc a d ≤ 0)
    {a b d : K} (h1 : kc a b = 0) (h2 : kc b d = 0) : kc a d = 0 := by
  have hle := htrans a b d (by omega) (by omega)
  have hdb : kc d b ≤ 0 := by have := hasym b d; omega
  have hba : kc b a ≤ 0 := by have := hasym a b; omega
  have hda := htrans d b a hdb hba
  have := hasym a d
  omega

/-! ### Helper lemmas about the commit loop -/

theorem hitCons_status {σ : Type} (r : LoopResult σ) : (hitCons r).status = r.status := rfl

theorem hitCons_events {σ : Type} (r : LoopResult σ) :
    (hitCons r).events = Event.hit :: r.events := rfl

/-- One step of the consumption loop either returns early (empty event list)
or consumes the head entry, hits the progress meter and continues. -/
theorem commitLoop_cons_cases {K σ : Type} (b : BulkBuilder K σ) (dd da : Bool)
    (d : K × DiskLoc) (rest : List (K × DiskLoc)) (st : σ) (dups : Finset DiskLoc) :
    (∃ s st2 dups2, commitLoop b dd da (d :: rest) st dups = ⟨some s, st2, dups2, []⟩) ∨
    (∃ dups2, commitLoop b dd da (d :: rest) st dups =
        hitCons (commitLoop b dd da rest (b.addKey st d.1 d.2).1 dups2)) := by
  simp only [commitLoop]
  split_ifs with h1 h2 h3 h4 h5
  · exact Or.inr ⟨dups, rfl⟩
  · exact Or.inl ⟨_, _, _, rfl⟩
  · exact Or.inl ⟨_, _, _, rfl⟩
  · exact Or.inr ⟨_, rfl⟩
  · exact Or.inl ⟨_, _, _, rfl⟩
  · exact Or.inr ⟨dups, rfl⟩

/-- When the consumption loop finishes without an early return, its event
trace is exactly one `pm.hit()` per consumed entry. -/
theorem commitLoop_none_events {K σ : Type} (b : BulkBuilder K σ) (dd da : Bool) :
    ∀ (entries : List (K × DiskLoc)) (st : σ) (dups : Finset DiskLoc),
      (commitLoop b dd da entries st dups).status = none →
      (commitLoop b dd da entries st dups).events =
        List.replicate entries.length Event.hit := by
  intro entries
  induction entries with
  | nil => intro st dups _; rfl
  | cons d rest ih =>
    intro st dups h
    rcases commitLoop_cons_cases b dd da d rest st dups with ⟨s, st2, dups2, heq⟩ | ⟨dups2, heq⟩
    · rw [heq] at h
      simp at h
    · rw [heq] at h ⊢
      rw [hitCons_status] at h
      rw [hitCons_events, List.length_cons, List.replicate_succ]
      exact congrArg _ (ih _ _ h)

/-- `commit` after a fully consumed loop: `pm.finished()` and the builder's
final commit run, the status is OK, and the warning fires exactly when
`dropDups` is off and the committed count differs from `_keysInserted`. -/
theorem commit_of_loop_none {K σ : Type} (b : BulkBuilder K σ) (st0 : σ)
    (mk : Bool) (ki : Nat) (u ig ddo rep mi : Bool)
    (entries : List (K × DiskLoc)) (dups0 : Finset DiskLoc)
    (h : (commitLoop b (ddo || rep) (!u || ig) entries st0 dups0).status = none) :
    BtreeBasedBulkAccessMethod.commit b st0 mk ki u ig ddo rep mi entries dups0 =
      ⟨Status.okStatus,
       (commitLoop b (ddo || rep) (!u || ig) entries st0 dups0).dups,
       (if mk then [Event.setMultikey] else []) ++
         (commitLoop b (ddo || rep) (!u || ig) entries st0 dups0).events ++
         [Event.finished, Event.builderCommit],
       (commitLoop b (ddo || rep) (!u || ig) entries st0 dups0).state,
       some (b.commitB (commitLoop b (ddo || rep) (!u || ig) entries st0 dups0).state mi),
       !(ddo || rep) &&
         (b.commitB (commitLoop b (ddo || rep) (!u || ig) entries st0 dups0).state mi != ki)⟩ := by
  simp only [BtreeBasedBulkAccessMethod.commit]
  rw [h]

/-- `commit` when the loop returned early with a status: that status is
returned as is, the final commit never runs and no `finished` call is made. -/
theorem commit_of_loop_some {K σ : Type} (b : BulkBuilder K σ) (st0 : σ)
    (mk : Bool) (ki : Nat) (u ig ddo rep mi : Bool)
    (entries : List (K × DiskLoc)) (dups0 : Finset DiskLoc) (s : Status)
    (h : (commitLoop b (ddo || rep) (!u || ig) entries st0 dups0).status = some s) :
    BtreeBasedBulkAccessMethod.commit b st0 mk ki u ig ddo rep mi entries dups0 =
      ⟨s,
       (commitLoop b (ddo || rep) (!u || ig) entries st0 dups0).dups,
       (if mk then [Event.setMultikey] else []) ++
         (commitLoop b (ddo || rep) (!u || ig) entries st0 dups0).events,
       (commitLoop b (ddo || rep) (!u || ig) entries st0 dups0).state,
       none, false⟩ := by
  simp only [BtreeBasedBulkAccessMethod.commit]
  rw [h]

/-! ### Claim theorems -/

/-- C2: the bulk-build comparator `BtreeExternalSortComparison::operator()`
defines a strict total order on (key, location) pairs: it compares keys with
the routine selected by the index-version flag fixed at construction
(`woCompare` without field names for version 1, the legacy `oldCompare` for
version 0); when the keys compare equal it returns the comparison of the two
locations, so two distinct entries with distinct locations never compare
equal; and — assuming the selected key routine is a lawful comparison
(antisymmetric and transitive) — the pair comparison is antisymmetric and
transitive. -/
theorem bulk_sort_comparator_strict_total_order {K : Type}
    (c : BtreeExternalSortComparison K)
    (hasym : ∀ a b, c.selectedKeyCmp a b = -(c.selectedKeyCmp b a))
    (htrans : ∀ a b d, c.selectedKeyCmp a b ≤ 0 → c.selectedKeyCmp b d ≤ 0 →
                c.selectedKeyCmp a d ≤ 0) :
    (∀ l r : K × DiskLoc, c.version = 1 →
        c.call l r = (if c.woCompare l.1 r.1 ≠ 0 then c.woCompare l.1 r.1
                      else l.2.compare r.2)) ∧
    (∀ l r : K × DiskLoc, c.version = 0 →
        c.call l r = (if c.oldCompare l.1 r.1 ≠ 0 then c.oldCompare l.1 r.1
                      else l.2.compare r.2)) ∧
    (∀ l r : K × DiskLoc, c.selectedKeyCmp l.1 r.1 = 0 →
        c.call l r = l.2.compare r.2) ∧
    (∀ l r : K × DiskLoc, l.2 ≠ r.2 → c.call l r ≠ 0) ∧
    (∀ l r : K × DiskLoc, c.call l r = -(c.call r l)) ∧
    (∀ l m r : K × DiskLoc, c.call l m < 0 → c.call m r < 0 → c.call l r < 0) := by
  refine ⟨?_, ?_, ?_, ?_, ?_, ?_⟩
  · intro l r h1
    simp [BtreeExternalSortComparison.call, h1]
  · intro l r h0
    simp [BtreeExternalSortComparison.call, h0]
  · intro l r h
    rw [BtreeExternalSortComparison.call_eq]
    simp [h]
  · intro l r hne h0
    rw [BtreeExternalSortComparison.call_eq] at h0
    by_cases hx : c.selectedKeyCmp l.1 r.1 = 0
    · simp [hx] at h0
      exact hne ((DiskLoc.compare_eq_zero_iff l.2 r.2).mp h0)
    · simp [hx] at h0
  · intro l r
    rw [BtreeExternalSortComparison.call_eq, BtreeExternalSortComparison.call_eq]
    by_cases hx : c.selectedKeyCmp l.1 r.1 = 0
    · have hxr : c.selectedKeyCmp r.1 l.1 = 0 := by have := hasym l.1 r.1; omega
      simp [hx, hxr]
      exact DiskLoc.compare_antisymm l.2 r.2
    · have hxr : c.selectedKeyCmp r.1 l.1 ≠ 0 := by have := hasym l.1 r.1; omega
      simp [hx, hxr]
      exact hasym l.1 r.1
  · intro l m r h1 h2
    rw [BtreeExternalSortComparison.call_eq] at h1 h2 ⊢
    by_cases hx : c.selectedKeyCmp l.1 m.1 = 0 <;>
      by_cases hy : c.selectedKeyCmp m.1 r.1 = 0
    · have hz := kcmp_eq_trans c.selectedKeyCmp hasym htrans hx hy
      simp [hx] at h1
      simp [hy] at h2
      simp [hz]
      exact DiskLoc.compare_trans l.2 m.2 r.2 h1 h2
    · simp [hy] at h2
      have hz := kcmp_eq_lt_trans c.selectedKeyCmp hasym htrans hx h2
      rw [if_pos hz.ne]
      exact hz
    · simp [hx] at h1
      have hz := kcmp_lt_eq_trans c.selectedKeyCmp hasym htrans h1 hy
      rw [if_pos hz.ne]
      exact hz
    · simp [hx] at h1
      simp [hy] at h2
      have hz := kcmp_lt_trans c.selectedKeyCmp hasym htrans h1 h2
      rw [if_pos hz.ne]
      exact hz

/-- Witness for C2: the comparator at version 1 with integer subtraction as
both key routines satisfies the hypotheses, and the conclusion holds there. -/
theorem bulk_sort_comparator_strict_total_order_witness :
    (∀ a b : Int, (BtreeExternalSortComparison.mk (fun a b => a - b)
        (fun a b => a - b) 1).selectedKeyCmp a b
      = -((BtreeExternalSortComparison.mk (fun a b => a - b)
        (fun a b => a - b) 1).selectedKeyCmp b a)) ∧
    ((∀ l r : Int × DiskLoc, (BtreeExternalSortComparison.mk (fun a b => a - b)
          (fun a b => a - b) 1).version = 1 →
        (BtreeExternalSortComparison.mk (fun a b => a - b) (fun a b => a - b) 1).call l r
          = (if (l.1 - r.1) ≠ 0 then l.1 - r.1 else l.2.compare r.2)) ∧
     (∀ l r : Int × DiskLoc, l.2 ≠ r.2 →
        (BtreeExternalSortComparison.mk (fun a b => a - b) (fun a b => a - b) 1).call l r ≠ 0) ∧
     (∀ l m r : Int × DiskLoc,
        (BtreeExternalSortComparison.mk (fun a b => a - b) (fun a b => a - b) 1).call l m < 0 →
        (BtreeExternalSortComparison.mk (fun a b => a - b) (fun a b => a - b) 1).call m r < 0 →
        (BtreeExternalSortComparison.mk (fun a b => a - b) (fun a b => a - b) 1).call l r < 0)) := by
  constructor
  · intro a b
    simp [BtreeExternalSortComparison.selectedKeyCmp]
  · have h := bulk_sort_comparator_strict_total_order
      (BtreeExternalSortComparison.mk (fun a b => a - b) (fun a b => a - b) 1)
      (by intro a b; simp [BtreeExternalSortComparison.selectedKeyCmp])
      (by intro a b d h1 h2
          simp [BtreeExternalSortComparison.selectedKeyCmp] at *
          omega)
    exact ⟨h.1, h.2.2.2.1, h.2.2.2.2.2⟩

/-- A bulk builder whose `addKey` always answers the fixed status `s`
(used to exercise the error paths of the consumption loop). -/
def statusBuilder (s : Status) : BulkBuilder Nat Unit where
  addKey _ _ _ := ((), s)
  commitB _ _ := 0

/-- A duplicate set of `n` distinct locations (file 0, offsets `0..n-1`). -/
def mkDups (n : Nat) : Finset DiskLoc :=
  (Finset.range n).image fun i : Nat => (⟨0, (i : Int)⟩ : DiskLoc)

theorem mkDups_card (n : Nat) : (mkDups n).card = n := by
  unfold mkDups
  rw [Finset.card_image_of_injective _ ?inj, Finset.card_range]
  case inj =>
    intro a b h
    simpa using congrArg DiskLoc.ofs h

theorem diskloc_one_zero_not_mem_mkDups (n : Nat) : (⟨1, 0⟩ : DiskLoc) ∉ mkDups n := by
  unfold mkDups
  simp [DiskLoc.mk.injEq]

/-- A successful `addKey` makes the loop hit the progress meter and continue
with the rest of the stream. -/
theorem commitLoop_ok_step {K σ : Type} (b : BulkBuilder K σ) (dd da : Bool)
    (st st2 : σ) (d : K × DiskLoc) (status : Status)
    (haddKey : b.addKey st d.1 d.2 = (st2, status))
    (hOK : status.isOK = true)
    (rest : List (K × DiskLoc)) (dups : Finset DiskLoc) :
    commitLoop b dd da (d :: rest) st dups =
      hitCons (commitLoop b dd da rest st2 dups) := by
  simp [commitLoop, haddKey, hOK]

/-- A duplicate key under drop-duplicates mode within the cardinality bound:
record the location, hit the meter and continue. -/
theorem commitLoop_dup_drop_step {K σ : Type} (b : BulkBuilder K σ) (da : Bool)
    (st st2 : σ) (d : K × DiskLoc) (status : Status)
    (haddKey : b.addKey st d.1 d.2 = (st2, status))
    (hnotOK : status.isOK = false)
    (hdup : status.code = ErrorCodes.DuplicateKey)
    (rest : List (K × DiskLoc)) (dups : Finset DiskLoc)
    (hcard : (insert d.2 dups).card ≤ kMaxDupsToStore) :
    commitLoop b true da (d :: rest) st dups =
      hitCons (commitLoop b true da rest st2 (insert d.2 dups)) := by
  simp [commitLoop, haddKey, hnotOK, hdup, Nat.not_lt.mpr hcard]

/-- C1: in the consumption loop of `commit`, when `addKey` reports a
duplicate key on a unique index whose uniqueness is not ignored
(`dupsAllowed = !unique || ignoreUnique = false`): with drop-duplicates mode
the entry's location is inserted into the duplicate set, the key is not
inserted (the builder state is exactly what the rejecting `addKey` left) and
the loop hits the progress meter and continues with the remaining entries;
without drop-duplicates mode `commit` returns immediately with that very
duplicate-key status and the builder's final commit never runs. -/
theorem commit_duplicate_key_policy {K σ : Type} (b : BulkBuilder K σ)
    (st : σ) (d : K × DiskLoc) (status : Status)
    (haddKey : b.addKey st d.1 d.2 = (st, status))
    (hnotOK : status.isOK = false)
    (hdup : status.code = ErrorCodes.DuplicateKey) :
    (∀ (rest : List (K × DiskLoc)) (dups : Finset DiskLoc),
        (insert d.2 dups).card ≤ kMaxDupsToStore →
        commitLoop b true false (d :: rest) st dups =
          hitCons (commitLoop b true false rest st (insert d.2 dups))) ∧
    (∀ (rest : List (K × DiskLoc)) (dups : Finset DiskLoc),
        commitLoop b false false (d :: rest) st dups = ⟨some status, st, dups, []⟩) ∧
    (∀ (mk : Bool) (ki : Nat) (mi : Bool) (rest : List (K × DiskLoc))
        (dups0 : Finset DiskLoc),
        (BtreeBasedBulkAccessMethod.commit b st mk ki true false false false mi
            (d :: rest) dups0).status = status ∧
        (BtreeBasedBulkAccessMethod.commit b st mk ki true false false false mi
            (d :: rest) dups0).keysCommit = none) := by
  refine ⟨?_, ?_, ?_⟩
  · intro rest dups hcard
    simp [commitLoop, haddKey, hnotOK, hdup, Nat.not_lt.mpr hcard]
  · intro rest dups
    simp [commitLoop, haddKey, hnotOK, hdup]
  · intro mk ki mi rest dups0
    have hloop : (commitLoop b (false || false) (!true || false) (d :: rest) st dups0).status
        = some status := by
      simp [commitLoop, haddKey, hnotOK, hdup]
    rw [commit_of_loop_some b st mk ki true false false false mi (d :: rest) dups0 status hloop]
    exact ⟨rfl, rfl⟩

/-- Witness for C1: a unique-index spec builder already holding key 5 rejects
the entry `(5, location (0,1))` as a duplicate; with drop-duplicates off the
loop returns that duplicate-key status at once. -/
theorem commit_duplicate_key_policy_witness :
    ((specBulkBuilder Nat false).addKey [5] 5 ⟨0, 1⟩
        = ([5], ⟨ErrorCodes.DuplicateKey, "E11000 duplicate key error"⟩)) ∧
    (Status.isOK ⟨ErrorCodes.DuplicateKey, "E11000 duplicate key error"⟩ = false) ∧
    (commitLoop (specBulkBuilder Nat false) false false [(5, ⟨0, 1⟩)] [5] ∅ =
      ⟨some ⟨ErrorCodes.DuplicateKey, "E11000 duplicate key error"⟩, [5], ∅, []⟩) :=
  ⟨by decide, by decide,
   (commit_duplicate_key_policy (specBulkBuilder Nat false) [5] (5, ⟨0, 1⟩)
      ⟨ErrorCodes.DuplicateKey, "E11000 duplicate key error"⟩
      (by decide) (by decide) rfl).2.1 [] ∅⟩

/-- C3: while dropping duplicates, if inserting the entry's location pushes
the duplicate set past `kMaxDupsToStore`, the loop stops with the
internal-error status `tooManyDupsStatus`, whose code (`InternalError`)
differs from the duplicate-key code, and `commit` returns it without ever
running the builder's final commit. -/
theorem commit_dup_set_bound {K σ : Type} (b : BulkBuilder K σ)
    (st st2 : σ) (d : K × DiskLoc) (status : Status)
    (haddKey : b.addKey st d.1 d.2 = (st2, status))
    (hnotOK : status.isOK = false)
    (hdup : status.code = ErrorCodes.DuplicateKey)
    (dups : Finset DiskLoc)
    (hcard : (insert d.2 dups).card > kMaxDupsToStore) :
    (∀ (dupsAllowed : Bool) (rest : List (K × DiskLoc)),
        commitLoop b true dupsAllowed (d :: rest) st dups =
          ⟨some tooManyDupsStatus, st2, insert d.2 dups, []⟩) ∧
    tooManyDupsStatus.code = ErrorCodes.InternalError ∧
    ErrorCodes.InternalError ≠ ErrorCodes.DuplicateKey ∧
    (∀ (mk : Bool) (ki : Nat) (u ig rep mi : Bool) (rest : List (K × DiskLoc)),
        (BtreeBasedBulkAccessMethod.commit b st mk ki u ig true rep mi
            (d :: rest) dups).status = tooManyDupsStatus ∧
        (BtreeBasedBulkAccessMethod.commit b st mk ki u ig true rep mi
            (d :: rest) dups).keysCommit = none) := by
  refine ⟨?_, rfl, by decide, ?_⟩
  · intro dupsAllowed rest
    simp [commitLoop, haddKey, hnotOK, hdup, hcard]
  · intro mk ki u ig rep mi rest
    have hloop : (commitLoop b (true || rep) (!u || ig) (d :: rest) st dups).status
        = some tooManyDupsStatus := by
      simp [commitLoop, haddKey, hnotOK, hdup, hcard]
    rw [commit_of_loop_some b st mk ki u ig true rep mi (d :: rest) dups
      tooManyDupsStatus hloop]
    exact ⟨rfl, rfl⟩

/-- Witness for C3: with a duplicate set already holding `kMaxDupsToStore`
locations, one more dropped duplicate aborts the loop with the
internal-error status. -/
theorem commit_dup_set_bound_witness :
    ((insert (⟨1, 0⟩ : DiskLoc) (mkDups kMaxDupsToStore)).card > kMaxDupsToStore) ∧
    (commitLoop (specBulkBuilder Nat false) true false [(5, ⟨1, 0⟩)] [5]
        (mkDups kMaxDupsToStore) =
      ⟨some tooManyDupsStatus, [5], insert (⟨1, 0⟩ : DiskLoc) (mkDups kMaxDupsToStore), []⟩) := by
  have hcard : (insert (⟨1, 0⟩ : DiskLoc) (mkDups kMaxDupsToStore)).card > kMaxDupsToStore := by
    rw [Finset.card_insert_of_not_mem (diskloc_one_zero_not_mem_mkDups _), mkDups_card]
    omega
  exact ⟨hcard,
    (commit_dup_set_bound (specBulkBuilder Nat false) [5] [5] (5, ⟨1, 0⟩)
      ⟨ErrorCodes.DuplicateKey, "E11000 duplicate key error"⟩
      (by decide) (by decide) rfl (mkDups kMaxDupsToStore) hcard).1 false []⟩

/-- C4: when `addKey` returns an error whose code is not `DuplicateKey`, the
loop returns that very status immediately — no further entry is processed, no
progress hit or `finished` call is made — and `commit` propagates it
unchanged without running the builder's final commit. -/
theorem commit_fatal_error_propagates {K σ : Type} (b : BulkBuilder K σ)
    (st st2 : σ) (d : K × DiskLoc) (status : Status)
    (haddKey : b.addKey st d.1 d.2 = (st2, status))
    (hnotOK : status.isOK = false)
    (hcode : status.code ≠ ErrorCodes.DuplicateKey) :
    (∀ (dropDups dupsAllowed : Bool) (rest : List (K × DiskLoc)) (dups : Finset DiskLoc),
        commitLoop b dropDups dupsAllowed (d :: rest) st dups =
          ⟨some status, st2, dups, []⟩) ∧
    (∀ (mk : Bool) (ki : Nat) (u ig ddo rep mi : Bool) (rest : List (K × DiskLoc))
        (dups0 : Finset DiskLoc),
        (BtreeBasedBulkAccessMethod.commit b st mk ki u ig ddo rep mi
            (d :: rest) dups0).status = status ∧
        (BtreeBasedBulkAccessMethod.commit b st mk ki u ig ddo rep mi
            (d :: rest) dups0).keysCommit = none ∧
        (BtreeBasedBulkAccessMethod.commit b st mk ki u ig ddo rep mi
            (d :: rest) dups0).events = (if mk then [Event.setMultikey] else [])) := by
  refine ⟨?_, ?_⟩
  · intro dropDups dupsAllowed rest dups
    simp [commitLoop, haddKey, hnotOK, hcode]
  · intro mk ki u ig ddo rep mi rest dups0
    have hloop : (commitLoop b (ddo || rep) (!u || ig) (d :: rest) st dups0).status
        = some status := by
      simp [commitLoop, haddKey, hnotOK, hcode]
    have hev : (commitLoop b (ddo || rep) (!u || ig) (d :: rest) st dups0).events = [] := by
      simp [commitLoop, haddKey, hnotOK, hcode]
    rw [commit_of_loop_some b st mk ki u ig ddo rep mi (d :: rest) dups0 status hloop]
    refine ⟨rfl, rfl, ?_⟩
    simp [hev]

/-- Witness for C4: a builder failing with code 2 ("BadValue") makes the loop
return that status unchanged. -/
theorem commit_fatal_error_propagates_witness :
    ((statusBuilder ⟨2, "BadValue: boom"⟩).addKey () 7 ⟨0, 0⟩ = ((), ⟨2, "BadValue: boom"⟩)) ∧
    (Status.isOK ⟨2, "BadValue: boom"⟩ = false) ∧
    ((⟨2, "BadValue: boom"⟩ : Status).code ≠ ErrorCodes.DuplicateKey) ∧
    (commitLoop (statusBuilder ⟨2, "BadValue: boom"⟩) true true [(7, ⟨0, 0⟩)] () ∅ =
      ⟨some ⟨2, "BadValue: boom"⟩, (), ∅, []⟩) :=
  ⟨by decide, by decide, by decide,
   (commit_fatal_error_propagates (statusBuilder ⟨2, "BadValue: boom"⟩) () ()
      (7, ⟨0, 0⟩) ⟨2, "BadValue: boom"⟩ (by decide) (by decide) (by decide)).1 true true [] ∅⟩

/-- C5: the multikey flag starts false; each `insert` leaves it exactly
`old || (document produced more than one key)`, so a call with at most one
key never resets it; once true it stays true across any further sequence of
`insert` calls; and when it is true at `commit` time, the catalog
`setMultikey` call is the first collaborator call `commit` makes, before any
entry of the stream is consumed. -/
theorem multikey_flag_monotonic (K : Type) :
    ((BtreeBasedBulkAccessMethod.init K).isMultiKey = false) ∧
    (∀ (s : BulkState K) (keys : Finset K) (loc : DiskLoc),
        ((BtreeBasedBulkAccessMethod.insert s keys loc).1).isMultiKey
          = (s.isMultiKey || decide (1 < keys.card))) ∧
    (∀ (s : BulkState K) (docs : List (Finset K × DiskLoc)),
        s.isMultiKey = true →
        (docs.foldl (fun t kl => (BtreeBasedBulkAccessMethod.insert t kl.1 kl.2).1)
            s).isMultiKey = true) ∧
    (∀ (σ : Type) (b : BulkBuilder K σ) (st0 : σ) (ki : Nat) (u ig ddo rep mi : Bool)
        (entries : List (K × DiskLoc)) (dups0 : Finset DiskLoc),
        ((BtreeBasedBulkAccessMethod.commit b st0 true ki u ig ddo rep mi
            entries dups0).events).head? = some Event.setMultikey) := by
  refine ⟨rfl, fun s keys loc => rfl, ?_, ?_⟩
  · intro s docs
    induction docs generalizing s with
    | nil => intro h; exact h
    | cons dl rest ih =>
      intro h
      simp only [List.foldl_cons]
      exact ih _ (by simp [BtreeBasedBulkAccessMethod.insert, h])
  · intro σ b st0 ki u ig ddo rep mi entries dups0
    rcases hst : (commitLoop b (ddo || rep) (!u || ig) entries st0 dups0).status with _ | s
    · rw [commit_of_loop_none b st0 true ki u ig ddo rep mi entries dups0 hst]
      simp
    · rw [commit_of_loop_some b st0 true ki u ig ddo rep mi entries dups0 s hst]
      simp

/-- Witness for C5: a state with the flag already true keeps it after a
further single-key insert. -/
theorem multikey_flag_monotonic_witness :
    ((⟨1, 2, true, 0⟩ : BulkState Nat).isMultiKey = true) ∧
    ((([({1}, ⟨0, 0⟩)] : List (Finset Nat × DiskLoc)).foldl
        (fun t kl => (BtreeBasedBulkAccessMethod.insert t kl.1 kl.2).1)
        ⟨1, 2, true, 0⟩).isMultiKey = true) :=
  ⟨rfl, (multikey_flag_monotonic Nat).2.2.1 ⟨1, 2, true, 0⟩ [({1}, ⟨0, 0⟩)] rfl⟩

/-- C6: when drop-duplicates mode is off and the loop consumed every entry,
a committed count different from the number of keys fed in still yields a
successful status — the mismatch only sets the warning. -/
theorem commit_count_mismatch_warns {K σ : Type} (b : BulkBuilder K σ) (st0 : σ)
    (mk : Bool) (ki : Nat) (u ig mi : Bool)
    (entries : List (K × DiskLoc)) (dups0 : Finset DiskLoc)
    (hloop : (commitLoop b (false || false) (!u || ig) entries st0 dups0).status = none)
    (hmismatch :
      b.commitB (commitLoop b (false || false) (!u || ig) entries st0 dups0).state mi ≠ ki) :
    (BtreeBasedBulkAccessMethod.commit b st0 mk ki u ig false false mi
        entries dups0).status = Status.okStatus ∧
    (BtreeBasedBulkAccessMethod.commit b st0 mk ki u ig false false mi
        entries dups0).status.isOK = true ∧
    (BtreeBasedBulkAccessMethod.commit b st0 mk ki u ig false false mi
        entries dups0).warned = true := by
  rw [commit_of_loop_none b st0 mk ki u ig false false mi entries dups0 hloop]
  refine ⟨rfl, rfl, ?_⟩
  simp [bne_iff_ne]
  exact hmismatch

/-- Witness for C6: one entry committed while seven were (nominally) fed in:
status stays OK and the warning fires. -/
theorem commit_count_mismatch_warns_witness :
    ((commitLoop (specBulkBuilder Nat true) (false || false) (!false || false)
        [(1, ⟨0, 0⟩)] [] ∅).status = none) ∧
    ((specBulkBuilder Nat true).commitB
        (commitLoop (specBulkBuilder Nat true) (false || false) (!false || false)
          [(1, ⟨0, 0⟩)] [] ∅).state false ≠ 7) ∧
    ((BtreeBasedBulkAccessMethod.commit (specBulkBuilder Nat true) [] false 7
        false false false false false [(1, ⟨0, 0⟩)] ∅).status = Status.okStatus ∧
     (BtreeBasedBulkAccessMethod.commit (specBulkBuilder Nat true) [] false 7
        false false false false false [(1, ⟨0, 0⟩)] ∅).status.isOK = true ∧
     (BtreeBasedBulkAccessMethod.commit (specBulkBuilder Nat true) [] false 7
        false false false false false [(1, ⟨0, 0⟩)] ∅).warned = true) :=
  ⟨by decide, by decide,
   commit_count_mismatch_warns (specBulkBuilder Nat true) [] false 7 false false false
     [(1, ⟨0, 0⟩)] ∅ (by decide) (by decide)⟩

/-- C8: on the successful path the event trace of `commit` is exactly the
optional leading `setMultikey`, one `pm.hit()` per entry consumed from the
sorted stream (dropped duplicates included), then a single `pm.finished()`
followed by the builder's final commit. -/
theorem commit_progress_events {K σ : Type} (b : BulkBuilder K σ) (st0 : σ)
    (mk : Bool) (ki : Nat) (u ig ddo rep mi : Bool)
    (entries : List (K × DiskLoc)) (dups0 : Finset DiskLoc)
    (hloop : (commitLoop b (ddo || rep) (!u || ig) entries st0 dups0).status = none) :
    (BtreeBasedBulkAccessMethod.commit b st0 mk ki u ig ddo rep mi
        entries dups0).events =
      (if mk then [Event.setMultikey] else []) ++
        List.replicate entries.length Event.hit ++
        [Event.finished, Event.builderCommit] := by
  rw [commit_of_loop_none b st0 mk ki u ig ddo rep mi entries dups0 hloop]
  rw [commitLoop_none_events b (ddo || rep) (!u || ig) entries st0 dups0 hloop]

/-- Witness for C8: a two-entry build (no duplicates) hits twice then
finishes once. -/
theorem commit_progress_events_witness :
    ((commitLoop (specBulkBuilder Nat false) (false || false) (!false || false)
        [(1, ⟨0, 0⟩), (2, ⟨0, 1⟩)] [] ∅).status = none) ∧
    ((BtreeBasedBulkAccessMethod.commit (specBulkBuilder Nat false) [] true 2
        false false false false false [(1, ⟨0, 0⟩), (2, ⟨0, 1⟩)] ∅).events =
      (if true then [Event.setMultikey] else []) ++
        List.replicate 2 Event.hit ++ [Event.finished, Event.builderCommit]) :=
  ⟨by decide,
   commit_progress_events (specBulkBuilder Nat false) [] true 2 false false false false
     false [(1, ⟨0, 0⟩), (2, ⟨0, 1⟩)] ∅ (by decide)⟩

/-- Feeding the spec bulk builder (uniqueness enforced) a stream of entries
whose key is already present: every entry is dropped as a duplicate, its
location joins the duplicate set, and the loop finishes. -/
theorem commitLoop_all_dups {K : Type} [DecidableEq K] (k : K) :
    ∀ (locs : List DiskLoc) (st : List K) (dups : Finset DiskLoc),
      k ∈ st → locs.Nodup → (∀ l ∈ locs, l ∉ dups) →
      dups.card + locs.length ≤ kMaxDupsToStore →
      commitLoop (specBulkBuilder K false) true false
          (locs.map fun l => (k, l)) st dups =
        ⟨none, st, dups ∪ locs.toFinset, List.replicate locs.length Event.hit⟩ := by
  intro locs
  induction locs with
  | nil =>
    intro st dups hk hnd hdisj hb
    simp [commitLoop]
  | cons l ls ih =>
    intro st dups hk hnd hdisj hb
    have haddKey : (specBulkBuilder K false).addKey st k l =
        (st, ⟨ErrorCodes.DuplicateKey, "E11000 duplicate key error"⟩) := by
      simp [specBulkBuilder, hk]
    have hlnotin : l ∉ dups := hdisj l (List.mem_cons_self l ls)
    have hcard : (insert l dups).card = dups.card + 1 :=
      Finset.card_insert_of_not_mem hlnotin
    have hb' : dups.card + (ls.length + 1) ≤ kMaxDupsToStore := by
      simpa using hb
    rw [List.map_cons]
    rw [commitLoop_dup_drop_step (specBulkBuilder K false) false st st (k, l)
        ⟨ErrorCodes.DuplicateKey, "E11000 duplicate key error"⟩ haddKey (by decide) rfl
        (ls.map fun l => (k, l)) dups (by rw [hcard]; omega)]
    rw [ih st (insert l dups) hk hnd.of_cons ?disj ?bound]
    case disj =>
      intro x hx
      rw [Finset.mem_insert]
      push_neg
      refine ⟨?_, hdisj x (List.mem_cons_of_mem l hx)⟩
      intro hxl
      exact (List.nodup_cons.mp hnd).1 (hxl ▸ hx)
    case bound =>
      rw [hcard]
      omega
    simp [hitCons, List.replicate_succ, Finset.insert_union, Finset.union_insert]

/-- C7: for a unique index (uniqueness not ignored) with drop-duplicates
enabled, committing a sorted stream of `N = 1 + |ltail|` entries that all
carry the same key and pairwise distinct locations succeeds, commits exactly
one key, and hands the caller a duplicate set holding exactly the other
`N − 1` locations. -/
theorem commit_duplicate_accounting {K : Type} [DecidableEq K] (k : K)
    (l0 : DiskLoc) (ltail : List DiskLoc)
    (hnodup : (l0 :: ltail).Nodup)
    (hbound : ltail.length ≤ kMaxDupsToStore)
    (mk : Bool) (ki : Nat) (mi : Bool) :
    ((BtreeBasedBulkAccessMethod.commit (specBulkBuilder K false) [] mk ki
        true false true false mi ((l0 :: ltail).map fun l => (k, l)) ∅).status
      = Status.okStatus) ∧
    ((BtreeBasedBulkAccessMethod.commit (specBulkBuilder K false) [] mk ki
        true false true false mi ((l0 :: ltail).map fun l => (k, l)) ∅).keysCommit
      = some 1) ∧
    ((BtreeBasedBulkAccessMethod.commit (specBulkBuilder K false) [] mk ki
        true false true false mi ((l0 :: ltail).map fun l => (k, l)) ∅).dups
      = ltail.toFinset) ∧
    ((BtreeBasedBulkAccessMethod.commit (specBulkBuilder K false) [] mk ki
        true false true false mi ((l0 :: ltail).map fun l => (k, l)) ∅).dups.card
      = ltail.length) := by
  have haddKey : (specBulkBuilder K false).addKey [] k l0 =
      ([k], Status.okStatus) := by
    simp [specBulkBuilder]
  have hloopeq : commitLoop (specBulkBuilder K false) true false
      ((l0 :: ltail).map fun l => (k, l)) [] ∅ =
      ⟨none, [k], ltail.toFinset, Event.hit :: List.replicate ltail.length Event.hit⟩ := by
    rw [List.map_cons]
    rw [commitLoop_ok_step (specBulkBuilder K false) true false [] [k] (k, l0)
        Status.okStatus haddKey (by decide) (ltail.map fun l => (k, l)) ∅]
    rw [commitLoop_all_dups k ltail [k] ∅ (List.mem_singleton.mpr rfl) hnodup.of_cons
        (by simp) (by simpa using hbound)]
    simp [hitCons]
  have hstatus : (commitLoop (specBulkBuilder K false) (true || false) (!true || false)
      ((l0 :: ltail).map fun l => (k, l)) [] ∅).status = none := by
    simp only [Bool.or_false, Bool.not_true, Bool.false_or]
    rw [hloopeq]
  rw [commit_of_loop_none (specBulkBuilder K false) [] mk ki true false true false mi
      ((l0 :: ltail).map fun l => (k, l)) ∅ hstatus]
  have hloopeq' : commitLoop (specBulkBuilder K false) (true || false) (!true || false)
      ((l0 :: ltail).map fun l => (k, l)) [] ∅ =
      ⟨none, [k], ltail.toFinset, Event.hit :: List.replicate ltail.length Event.hit⟩ := by
    simp only [Bool.or_false, Bool.not_true, Bool.false_or]
    exact hloopeq
  rw [hloopeq']
  refine ⟨rfl, rfl, rfl, ?_⟩
  exact List.toFinset_card_of_nodup hnodup.of_cons

/-- Witness for C7: three documents with key 5 at three distinct locations —
one key committed, the other two locations in the duplicate set. -/
theorem commit_duplicate_accounting_witness :
    (((⟨0, 0⟩ : DiskLoc) :: [⟨0, 1⟩, ⟨0, 2⟩]).Nodup) ∧
    (([⟨0, 1⟩, ⟨0, 2⟩] : List DiskLoc).length ≤ kMaxDupsToStore) ∧
    (((BtreeBasedBulkAccessMethod.commit (specBulkBuilder Nat false) [] false 3
        true false true false false
        (((⟨0, 0⟩ : DiskLoc) :: [⟨0, 1⟩, ⟨0, 2⟩]).map fun l => (5, l)) ∅).status
      = Status.okStatus) ∧
    ((BtreeBasedBulkAccessMethod.commit (specBulkBuilder Nat false) [] false 3
        true false true false false
        (((⟨0, 0⟩ : DiskLoc) :: [⟨0, 1⟩, ⟨0, 2⟩]).map fun l => (5, l)) ∅).keysCommit
      = some 1) ∧
    ((BtreeBasedBulkAccessMethod.commit (specBulkBuilder Nat false) [] false 3
        true false true false false
        (((⟨0, 0⟩ : DiskLoc) :: [⟨0, 1⟩, ⟨0, 2⟩]).map fun l => (5, l)) ∅).dups
      = ([⟨0, 1⟩, ⟨0, 2⟩] : List DiskLoc).toFinset) ∧
    ((BtreeBasedBulkAccessMethod.commit (specBulkBuilder Nat false) [] false 3
        true false true false false
        (((⟨0, 0⟩ : DiskLoc) :: [⟨0, 1⟩, ⟨0, 2⟩]).map fun l => (5, l)) ∅).dups.card
      = ([⟨0, 1⟩, ⟨0, 2⟩] : List DiskLoc).length)) :=
  ⟨by decide, by decide,
   commit_duplicate_accounting 5 ⟨0, 0⟩ [⟨0, 1⟩, ⟨0, 2⟩] (by decide) (by decide)
     false 3 false⟩

namespace RocksCollectionCatalogEntry

theorem parseEntry_toBSON (imd : IndexMetaData) :
    IndexMetaData.parseEntry imd.toBSON = imd := rfl

/-- Round trip of the whole metadata document through `toBSON` and `parse`. -/
theorem parse_toBSON (md : MetaData) : MetaData.parse md.toBSON = md := by
  cases md with
  | mk ns indexes =>
    have h : (indexes.map IndexMetaData.toBSON).map IndexMetaData.parseEntry = indexes := by
      rw [List.map_map]
      have hcomp : IndexMetaData.parseEntry ∘ IndexMetaData.toBSON = id := by
        funext imd
        exact parseEntry_toBSON imd
      rw [hcomp, List.map_id]
    simp [MetaData.parse, MetaData.toBSON, BSONObj.getField, BSONValue.isABSONObj,
          BSONValue.arrayElems, BSONValue.valuestrsafe, h]

/-- C9: catalog metadata serialization round-trips — for every `MetaData`
value, `MetaData::parse` applied to the BSON document that
`MetaData::toBSON` produces returns the same namespace string and the same
index entries (spec object, ready flag, multikey flag, head location) in the
same order, i.e. the very same `MetaData` value. -/
theorem metadata_bson_roundtrip (md : MetaData) : MetaData.parse md.toBSON = md :=
  parse_toBSON md

/-- C10: `setIndexIsMultikey` with the index found at offset `i`: when the
stored multikey flag already equals the requested value, nothing is written —
the stored document is returned untouched — and the result is `false`;
otherwise exactly that entry's multikey flag is rewritten and the result is
`true`, with the namespace, the number of entries, every other entry, and the
remaining fields of entry `i` (spec, ready, head) unchanged. -/
theorem setIndexIsMultikey_frame (stored : BSONObj) (name : String) (multikey : Bool)
    (i : Nat) (imd : IndexMetaData)
    (hoff : (MetaData.parse stored).findIndexOffset name = (i : Int))
    (hget : (MetaData.parse stored).indexes[i]? = some imd) :
    (imd.multikey = multikey →
        setIndexIsMultikey stored name multikey = some (stored, false)) ∧
    (imd.multikey ≠ multikey →
        ∃ stored2,
          setIndexIsMultikey stored name multikey = some (stored2, true) ∧
          (MetaData.parse stored2).ns = (MetaData.parse stored).ns ∧
          (MetaData.parse stored2).indexes.length
            = (MetaData.parse stored).indexes.length ∧
          (MetaData.parse stored2).indexes[i]?
            = some { imd with multikey := multikey } ∧
          (∀ j : Nat, j ≠ i →
            (MetaData.parse stored2).indexes[j]?
              = (MetaData.parse stored).indexes[j]?)) := by
  have hlt : i < (MetaData.parse stored).indexes.length :=
    (List.getElem?_eq_some.mp hget).choose
  have hnonneg : ¬((i : Int) < 0) := by
    simp
  constructor
  · intro heq
    simp only [setIndexIsMultikey, hoff, hnonneg, if_false, Int.toNat_natCast, hget]
    simp [heq]
  · intro hne
    have hbeq : (imd.multikey == multikey) = false := by
      simp [hne]
    simp only [setIndexIsMultikey, hoff, hnonneg, if_false, Int.toNat_natCast, hget, hbeq]
    refine ⟨_, rfl, ?_, ?_, ?_, ?_⟩
    · rw [parse_toBSON]
    · rw [parse_toBSON]
      exact List.length_set ..
    · rw [parse_toBSON]
      exact List.getElem?_set_eq_of_lt _ hlt
    · intro j hj
      rw [parse_toBSON]
      exact List.getElem?_set_ne (fun h => hj h.symm)

/-- A sample one-index metadata document for the C10 witness. -/
def sampleIMD : IndexMetaData :=
  ⟨[("name", BSONValue.string "idx1")], false, ⟨3, 4⟩, false⟩

/-- A sample metadata value for the C10 witness. -/
def sampleMD : MetaData := ⟨"db.coll", [sampleIMD]⟩

/-- Witness for C10: flipping the multikey flag of the only index of
`sampleMD` writes an updated document and returns `true`, preserving
everything else. -/
theorem setIndexIsMultikey_frame_witness :
    ((MetaData.parse sampleMD.toBSON).findIndexOffset "idx1" = ((0 : Nat) : Int)) ∧
    ((MetaData.parse sampleMD.toBSON).indexes[(0 : Nat)]? = some sampleIMD) ∧
    (sampleIMD.multikey ≠ true) ∧
    (∃ stored2,
        setIndexIsMultikey sampleMD.toBSON "idx1" true = some (stored2, true) ∧
        (MetaData.parse stored2).ns = (MetaData.parse sampleMD.toBSON).ns ∧
        (MetaData.parse stored2).indexes.length
          = (MetaData.parse sampleMD.toBSON).indexes.length ∧
        (MetaData.parse stored2).indexes[(0 : Nat)]?
          = some { sampleIMD with multikey := true } ∧
        (∀ j : Nat, j ≠ 0 →
          (MetaData.parse stored2).indexes[j]?
            = (MetaData.parse sampleMD.toBSON).indexes[j]?)) :=
  ⟨rfl, rfl, by decide,
   (setIndexIsMultikey_frame sampleMD.toBSON "idx1" true 0 sampleIMD rfl rfl).2
     (by decide)⟩

end RocksCollectionCatalogEntry

end Mongo
